import Mathlib

/-!
Verification of the CopyPasteEverything clipboard-sync program.

We shallowly embed the Python modules `src/compression.py`,
`src/chunked_transfer.py` and the echo-suppression logic of
`src/client.py` / `src/server.py` into Lean, and prove the spec's
claims about them.

Bytes are modelled as `List Nat`.  External library functions
(`hashlib.md5`, `zstandard` compression, `base64`) are modelled as
parameters; where a claim depends on a documented contract of such a
library (e.g. that decompression inverts compression) the contract
appears as an explicit hypothesis.
-/

/-- Bytes are lists of naturals (the Python `bytes` type). -/
abbrev Bytes := List Nat

/-! ### Association-list maps (Python `dict` with string keys) -/

/-- `dict.get k` on an association list. -/
def alookup (k : String) : List (String × α) → Option α
  | [] => none
  | (k', v) :: rest => if k' = k then some v else alookup k rest

/-- `dict.pop(k, None)` / `del` : remove a key. -/
def aerase (k : String) : List (String × α) → List (String × α)
  | [] => []
  | (k', v) :: rest => if k' = k then aerase k rest else (k', v) :: aerase k rest

/-- `dict[k] = v` : overwrite / insert a binding. -/
def ainsert (k : String) (v : α) (l : List (String × α)) : List (String × α) :=
  (k, v) :: aerase k l

theorem alookup_ainsert_self (k : String) (v : α) (l : List (String × α)) :
    alookup k (ainsert k v l) = some v := by
  simp [ainsert, alookup]

theorem alookup_aerase_self (k : String) (l : List (String × α)) :
    alookup k (aerase k l) = none := by
  induction l with
  | nil => rfl
  | cons p rest ih =>
    obtain ⟨a, b⟩ := p
    by_cases h : a = k
    · simpa [aerase, h] using ih
    · simpa [aerase, alookup, h] using ih

theorem alookup_aerase_ne (k k' : String) (hne : k' ≠ k)
    (l : List (String × α)) : alookup k' (aerase k l) = alookup k' l := by
  induction l with
  | nil => rfl
  | cons p rest ih =>
    obtain ⟨a, b⟩ := p
    by_cases h : a = k
    · have h2 : a ≠ k' := fun h2 => hne (h2 ▸ h)
      simp only [aerase, if_pos h, alookup, if_neg h2]
      exact ih
    · by_cases h2 : a = k'
      · simp only [aerase, if_neg h, alookup, if_pos h2]
      · simp only [aerase, if_neg h, alookup, if_neg h2]
        exact ih

theorem alookup_ainsert_ne (k k' : String) (hne : k' ≠ k) (v : α)
    (l : List (String × α)) : alookup k' (ainsert k v l) = alookup k' l := by
  have h1 : k ≠ k' := fun h => hne h.symm
  simp only [ainsert, alookup, if_neg h1]
  exact alookup_aerase_ne k k' hne l

/-! ### `src/compression.py` -/

/-- `MIN_COMPRESS_SIZE` from compression.py. -/
def MIN_COMPRESS_SIZE : Nat := 512

/-- The external codec libraries used by compression.py: `base64`
(encoding bytes into a value of some wire type `σ`) and `zstandard`.
Both decoding directions can fail on malformed input, which Python
signals by raising; we model that with `Option`. -/
structure Codec (σ : Type) where
  b64encode : Bytes → σ
  b64decode : σ → Option Bytes
  zstdCompress : Bytes → Bytes
  zstdDecompress : Bytes → Option Bytes

variable {σ : Type}

/-- `compress_data` from compression.py: skip small inputs, keep the
compressed form only when it is strictly smaller. -/
def compress_data (C : Codec σ) (data : Bytes) : Bytes × Bool :=
  if data.length < MIN_COMPRESS_SIZE then (data, false)
  else
    let compressed := C.zstdCompress data
    if compressed.length < data.length then (compressed, true)
    else (data, false)

/-- `decompress_data` from compression.py. -/
def decompress_data (C : Codec σ) (data : Bytes) (is_compressed : Bool) :
    Option Bytes :=
  if is_compressed then C.zstdDecompress data else some data

/-- `compress_and_encode` from compression.py. -/
def compress_and_encode (C : Codec σ) (data : Bytes) : σ × Bool :=
  let r := compress_data C data
  (C.b64encode r.1, r.2)

/-- `decode_and_decompress` from compression.py. -/
def decode_and_decompress (C : Codec σ) (s : σ) (is_compressed : Bool) :
    Option Bytes :=
  (C.b64decode s).bind (fun d => decompress_data C d is_compressed)

/-! ### `src/chunked_transfer.py` — data model -/

/-- `TransferState` enumeration. -/
inductive TransferState
  | pending | transferring | paused | completed | failed | cancelled
deriving DecidableEq, Repr

/-- `ChunkInfo` dataclass: metadata of a single chunk.  (`received` is
the sender-side acknowledgement flag.) -/
structure ChunkInfo where
  chunk_index : Nat
  offset : Nat
  size : Nat
  checksum : String
  transferred : Bool := false
  received : Bool := false
deriving DecidableEq, Repr

/-- `TransferTask` dataclass.  The wall-clock timestamps
`created_at` / `updated_at` are omitted: no claim depends on them. -/
structure TransferTask where
  transfer_id : String
  filename : String
  file_size : Nat
  file_hash : String
  total_chunks : Nat
  chunk_size : Nat
  chunks : List ChunkInfo := []
  state : TransferState := .pending
  transferred_chunks : Nat := 0
  error_message : String := ""
deriving DecidableEq, Repr

/-- `TransferTask.get_pending_chunks`, projected onto the index field
(`handle_transfer_init` uses `[c.chunk_index for c in pending]`). -/
def TransferTask.pendingChunkIndices (t : TransferTask) : List Nat :=
  (t.chunks.filter (fun c => !c.transferred)).map (fun c => c.chunk_index)

/-- `TransferTask.progress` property: percentage, 0 when there are no
chunks.  Python computes a float; we use ℚ. -/
def TransferTask.progress (t : TransferTask) : ℚ :=
  if t.total_chunks = 0 then 0
  else ((t.transferred_chunks : ℚ) / (t.total_chunks : ℚ)) * 100

/-- The configuration fields of `config.py` that the transfer engine
reads. -/
structure Config where
  chunk_threshold : Nat
  chunk_size : Nat
  resume_enabled : Bool

/-- The default values from `config.py`. -/
def defaultConfig : Config :=
  { chunk_threshold := 10 * 1024 * 1024
    chunk_size := 256 * 1024
    resume_enabled := true }

/-- Observer-callback invocations and state mutations of the manager,
recorded as an event trace.  `setState` records every assignment
`task.state = ...` in the Python source. -/
inductive Ev
  | progress (tid : String) (pct : ℚ)
  | complete (tid : String) (data : Bytes)
  | error (tid : String) (msg : String)
  | setState (tid : String) (st : TransferState)
deriving DecidableEq, Repr

/-- The reply envelopes the receiving side produces. -/
inductive OutMsg
  | chunkAck (tid : String) (chunk_index : Nat)
  | chunkNack (tid : String) (chunk_index : Nat) (error : String)
  | transferComplete (tid : String) (filename : String) (file_size : Nat)
  | transferError (tid : String) (error : String)
deriving DecidableEq, Repr

/-- The mutable state of a `ChunkedTransferManager`: the four dicts,
plus the set of `<transfer_id>.partial` sidecar files currently on
disk (as a list of transfer ids). -/
structure MState where
  outgoing : List (String × TransferTask) := []
  outgoing_data : List (String × Bytes) := []
  incoming : List (String × TransferTask) := []
  incoming_data : List (String × Bytes) := []
  partials : List String := []
deriving DecidableEq, Repr

/-! ### `src/chunked_transfer.py` — sending side -/

/-- The chunk-building `while` loop of `prepare_send` (and of
`split_into_chunks`).  Fuel-indexed: Python's loop does not terminate
when `chunk_size = 0`, which we model by returning the part built
within the fuel; callers supply `data.length` fuel, enough whenever
`0 < chunk_size`. -/
def buildChunksAux (md5 : Bytes → String) (chunk_size : Nat) :
    Nat → Bytes → Nat → Nat → List ChunkInfo
  | 0, _, _, _ => []
  | fuel + 1, data, offset, idx =>
    if data.isEmpty then []
    else
      let chunk_data := data.take chunk_size
      { chunk_index := idx
        offset := offset
        size := chunk_data.length
        checksum := md5 chunk_data } ::
        buildChunksAux md5 chunk_size fuel (data.drop chunk_size)
          (offset + chunk_data.length) (idx + 1)

/-- The chunk descriptor list built by `prepare_send`. -/
def buildChunks (md5 : Bytes → String) (chunk_size : Nat) (data : Bytes) :
    List ChunkInfo :=
  buildChunksAux md5 chunk_size data.length data 0 0

/-- `needs_chunked_transfer`. -/
def needs_chunked_transfer (cfg : Config) (file_size : Nat) : Bool :=
  file_size ≥ cfg.chunk_threshold

/-- `prepare_send`.  The fresh `uuid` is passed in as `tid`; `md5` is
the external `hashlib.md5(·).hexdigest()`. -/
def prepare_send (md5 : Bytes → String) (cfg : Config) (tid : String)
    (filename : String) (data : Bytes) (st : MState) :
    Option TransferTask × MState × List Ev :=
  if data.length < cfg.chunk_threshold then (none, st, [])
  else
    let chunks := buildChunks md5 cfg.chunk_size data
    let task : TransferTask :=
      { transfer_id := tid
        filename := filename
        file_size := data.length
        file_hash := md5 data
        total_chunks := chunks.length
        chunk_size := cfg.chunk_size
        chunks := chunks
        state := .pending }
    (some task,
     { st with outgoing := ainsert tid task st.outgoing
               outgoing_data := ainsert tid data st.outgoing_data },
     [Ev.progress tid 0])

/-- `get_chunk_data`.  Python's `if not task or not data` treats an
empty `bytes` as falsy, hence the `data ≠ []` test. -/
def get_chunk_data (C : Codec σ) (st : MState) (tid : String)
    (chunk_index : Nat) : Option (Nat × Nat × String × σ × Bool) :=
  match alookup tid st.outgoing, alookup tid st.outgoing_data with
  | some task, some data =>
    if data.isEmpty then none
    else if chunk_index ≥ task.chunks.length then none
    else
      match task.chunks[chunk_index]? with
      | none => none
      | some ci =>
        let chunk_data := (data.drop ci.offset).take ci.size
        let r := compress_and_encode C chunk_data
        some (ci.offset, ci.size, ci.checksum, r.1, r.2)
  | _, _ => none

/-- `mark_chunk_sent`: set the chunk's `transferred` flag and bump the
counter (unconditionally, exactly as the source does). -/
def mark_chunk_sent (st : MState) (tid : String) (chunk_index : Nat) :
    MState × List Ev :=
  match alookup tid st.outgoing with
  | none => (st, [])
  | some task =>
    if h : chunk_index < task.chunks.length then
      let ci := task.chunks.get ⟨chunk_index, h⟩
      let task' := { task with
        chunks := task.chunks.set chunk_index { ci with transferred := true }
        transferred_chunks := task.transferred_chunks + 1 }
      if task'.transferred_chunks ≥ task'.total_chunks then
        let task'' := { task' with state := .completed }
        ({ st with outgoing := ainsert tid task'' st.outgoing },
         [Ev.setState tid .completed])
      else
        let task'' := { task' with state := .transferring }
        ({ st with outgoing := ainsert tid task'' st.outgoing },
         [Ev.setState tid .transferring, Ev.progress tid task''.progress])
    else (st, [])

/-! ### `src/chunked_transfer.py` — receiving side -/

/-- A chunk descriptor as carried in a `chunked_transfer_init`
envelope (the four serialized `ChunkInfo` fields). -/
structure ChunkDesc where
  chunk_index : Nat
  offset : Nat
  size : Nat
  checksum : String
deriving DecidableEq, Repr

/-- Rebuilding a `ChunkInfo` from an envelope descriptor
(`transferred` defaults to `False`). -/
def ChunkDesc.toInfo (d : ChunkDesc) : ChunkInfo :=
  { chunk_index := d.chunk_index
    offset := d.offset
    size := d.size
    checksum := d.checksum }

/-- A `chunked_transfer_init` envelope. -/
structure InitEnv where
  transfer_id : String
  filename : String
  file_size : Nat
  file_hash : String
  total_chunks : Nat
  chunk_size : Nat
  chunks : List ChunkDesc
deriving DecidableEq, Repr

/-- A `chunk_data` envelope (`data` is the wire-encoded payload). -/
structure ChunkDataMsg (σ : Type) where
  transfer_id : String
  chunk_index : Nat
  data : σ
  compressed : Bool

/-- `_cleanup_transfer`: drop the transfer from all four dicts and
delete its `.partial` sidecar. -/
def cleanup_transfer (st : MState) (tid : String) : MState :=
  { outgoing := aerase tid st.outgoing
    outgoing_data := aerase tid st.outgoing_data
    incoming := aerase tid st.incoming
    incoming_data := aerase tid st.incoming_data
    partials := st.partials.filter (fun t => t ≠ tid) }

/-- `_save_partial_data`: write the in-memory buffer to the
`<tid>.partial` sidecar (a no-op when resume is disabled or the
transfer has no buffer). -/
def save_partial_data (cfg : Config) (st : MState) (tid : String) : MState :=
  if cfg.resume_enabled then
    match alookup tid st.incoming_data with
    | none => st
    | some _ =>
      { st with partials :=
          if tid ∈ st.partials then st.partials else tid :: st.partials }
  else st

/-- The `else` branch of `handle_transfer_init`: allocate a fresh task
and a zeroed buffer, answer with the full index range. -/
def init_new_transfer (st : MState) (env : InitEnv) :
    MState × List Nat × List Ev :=
  let tid := env.transfer_id
  let chunks := env.chunks.map ChunkDesc.toInfo
  let task : TransferTask :=
    { transfer_id := tid
      filename := env.filename
      file_size := env.file_size
      file_hash := env.file_hash
      total_chunks := env.total_chunks
      chunk_size := env.chunk_size
      chunks := chunks
      state := .transferring }
  ({ st with incoming := ainsert tid task st.incoming
             incoming_data :=
               ainsert tid (List.replicate env.file_size 0) st.incoming_data },
   List.range env.total_chunks,
   [Ev.progress tid 0])

/-- `handle_transfer_init`.  Returns the new state, the `needed_chunks`
field of the `chunked_transfer_ack` reply, and the event trace. -/
def handle_transfer_init (st : MState) (env : InitEnv) :
    MState × List Nat × List Ev :=
  let tid := env.transfer_id
  match alookup tid st.incoming with
  | some existing =>
    if existing.file_hash = env.file_hash then
      let needed := existing.pendingChunkIndices
      ({ st with incoming :=
           ainsert tid { existing with state := .transferring } st.incoming },
       needed, [Ev.setState tid .transferring])
    else init_new_transfer st env
  | none => init_new_transfer st env

/-- Python slice assignment `buffer[offset:offset+len(chunk)] = chunk`
on a `bytearray` (clamping at the end, exactly as `take`/`drop` do). -/
def writeAt (buf : Bytes) (offset : Nat) (chunk : Bytes) : Bytes :=
  buf.take offset ++ chunk ++ buf.drop (offset + chunk.length)

/-- `_complete_transfer`: verify the whole-file hash; on match emit
`on_complete` and clean up, on mismatch mark the task `Failed` and
emit `on_error` (without any cleanup). -/
def complete_transfer (md5 : Bytes → String) (st : MState) (tid : String) :
    MState × OutMsg × List Ev :=
  match alookup tid st.incoming, alookup tid st.incoming_data with
  | some task, some buf =>
    if md5 buf ≠ task.file_hash then
      let task' := { task with state := .failed
                               error_message := "File hash mismatch" }
      ({ st with incoming := ainsert tid task' st.incoming },
       .transferError tid "hash_mismatch",
       [Ev.setState tid .failed, Ev.error tid "File integrity check failed"])
    else
      (cleanup_transfer
         { st with incoming :=
             ainsert tid { task with state := .completed } st.incoming } tid,
       .transferComplete tid task.filename task.file_size,
       [Ev.setState tid .completed, Ev.complete tid buf])
  | _, _ => (st, .transferError tid "unknown_transfer", [])

/-- `handle_chunk_data`: decode, per-chunk checksum check, buffer
write, flag/counter update, periodic sidecar save, completion check. -/
def handle_chunk_data (md5 : Bytes → String) (C : Codec σ) (cfg : Config)
    (st : MState) (msg : ChunkDataMsg σ) : MState × Option OutMsg × List Ev :=
  let tid := msg.transfer_id
  match alookup tid st.incoming, alookup tid st.incoming_data with
  | some task, some buf =>
    if h : msg.chunk_index < task.chunks.length then
      let ci := task.chunks.get ⟨msg.chunk_index, h⟩
      match decode_and_decompress C msg.data msg.compressed with
      | none => (st, some (.chunkNack tid msg.chunk_index "decode_error"), [])
      | some chunk_data =>
        if md5 chunk_data ≠ ci.checksum then
          (st, some (.chunkNack tid msg.chunk_index "checksum_error"), [])
        else
          let buf' := writeAt buf ci.offset chunk_data
          let task' := { task with
            chunks := task.chunks.set msg.chunk_index
              { ci with transferred := true }
            transferred_chunks := task.transferred_chunks + 1 }
          let st1 := { st with
            incoming := ainsert tid task' st.incoming
            incoming_data := ainsert tid buf' st.incoming_data }
          let st2 := if task'.transferred_chunks % 10 = 0 then
              save_partial_data cfg st1 tid
            else st1
          if task'.transferred_chunks ≥ task'.total_chunks then
            let r := complete_transfer md5 st2 tid
            (r.1, some r.2.1, Ev.progress tid task'.progress :: r.2.2)
          else
            (st2, some (.chunkAck tid msg.chunk_index),
             [Ev.progress tid task'.progress])
    else (st, none, [])
  | _, _ => (st, none, [])

/-- `cancel_transfer`: mark the task cancelled (when it exists) and
always clean up. -/
def cancel_transfer (st : MState) (tid : String) : MState × Bool × List Ev :=
  let found := (alookup tid st.outgoing).isSome || (alookup tid st.incoming).isSome
  (cleanup_transfer st tid, found,
   if found then [Ev.setState tid .cancelled] else [])

/-! ### `src/client.py` / `src/server.py` — echo suppression

`ClipboardClient._handle_message` (clipboard branch),
`ClipboardClient._send_clipboard_item`, and
`ClipboardServer._handle_message` (clipboard branch) implement the
same last-seen-hash gate; `_last_hash` is initialised to `""`. -/

/-- `ContentType` of a clipboard envelope. -/
inductive CType
  | text | image | files | other
deriving DecidableEq, Repr

/-- An inbound `clipboard` envelope.  The wire payload fields are
base64 strings, so the codec is instantiated at `σ := String`. -/
structure ClipMsg where
  content_type : CType
  content_hash : String := ""
  compressed : Bool := false
  content : String := ""
  image_data : String := ""
  files : List (String × String × Bool) := []  -- (filename, content, compressed)
  file_paths : List String := []

/-- A received clipboard item, as delivered to
`on_clipboard_received`. -/
inductive RecvItem
  | text (content : String)
  | image (data : Bytes)
  | fileContents (files : List (String × Bytes))
  | filePaths (paths : List String)
deriving DecidableEq, Repr

/-- Session state: the `_last_hash` field (initially `""`). -/
structure Session where
  last_hash : String := ""
deriving DecidableEq, Repr

/-- Item construction from an inbound envelope: lines 159–199 of
client.py (identical in server.py).  `utf8` is Python's
`bytes.decode('utf-8')`, which can raise; any `none` here models an
exception reaching the handler's `try`/`except` (or an early
`return`), so no item is delivered. -/
def build_item (C : Codec String) (utf8 : Bytes → Option String)
    (msg : ClipMsg) : Option RecvItem :=
  match msg.content_type with
  | .text =>
    if msg.compressed ∧ msg.content ≠ "" then
      (decode_and_decompress C msg.content true).bind
        (fun b => (utf8 b).map RecvItem.text)
    else some (RecvItem.text msg.content)
  | .image =>
    if msg.image_data = "" then none
    else (decode_and_decompress C msg.image_data msg.compressed).map RecvItem.image
  | .files =>
    if msg.files ≠ [] then
      (msg.files.mapM (fun f =>
        (decode_and_decompress C f.2.1 f.2.2).map (fun b => (f.1, b)))).map
        RecvItem.fileContents
    else some (RecvItem.filePaths msg.file_paths)
  | .other => none

/-- The clipboard branch of `_handle_message`: discard when the hash
equals `_last_hash`, otherwise record the hash and deliver the built
item (if construction succeeds). -/
def handle_clipboard_message (C : Codec String) (utf8 : Bytes → Option String)
    (s : Session) (msg : ClipMsg) : Session × Option RecvItem :=
  if msg.content_hash = s.last_hash then (s, none)
  else ({ last_hash := msg.content_hash }, build_item C utf8 msg)

/-- `_send_clipboard_item`, reduced to the hash gate: the returned
Bool says whether an envelope is sent.  `h` is the item's
`content_hash`. -/
def send_clipboard_item (s : Session) (h : String) : Session × Bool :=
  if h = s.last_hash then (s, false)
  else ({ last_hash := h }, true)

/-! ## Claims -/

/-- A trivial codec instance (identity encodings) used to witness
theorems that are generic in the external libraries. -/
def idCodec : Codec Bytes :=
  { b64encode := id
    b64decode := some
    zstdCompress := id
    zstdDecompress := some }

/-- C3: codec round-trip — for every byte sequence `x`,
`decode_and_decompress` applied to the pair returned by
`compress_and_encode x` returns exactly `x`, given the base64 and
zstd library contracts. -/
theorem c3_codec_roundtrip {σ : Type} (C : Codec σ)
    (hb : ∀ y, C.b64decode (C.b64encode y) = some y)
    (hz : ∀ y, C.zstdDecompress (C.zstdCompress y) = some y)
    (x : Bytes) :
    decode_and_decompress C (compress_and_encode C x).1
      (compress_and_encode C x).2 = some x := by
  unfold compress_and_encode compress_data decode_and_decompress decompress_data
  by_cases h1 : x.length < MIN_COMPRESS_SIZE
  · simp [h1, hb]
  · by_cases h2 : (C.zstdCompress x).length < x.length
    · simp [h1, h2, hb, hz]
    · simp [h1, h2, hb]

/-- Witness for C3 at the identity codec and `x = [1, 2, 3]`. -/
theorem c3_codec_roundtrip_witness :
    (∀ y, idCodec.b64decode (idCodec.b64encode y) = some y) ∧
    decode_and_decompress idCodec (compress_and_encode idCodec [1, 2, 3]).1
      (compress_and_encode idCodec [1, 2, 3]).2 = some [1, 2, 3] :=
  ⟨fun _ => rfl,
   c3_codec_roundtrip idCodec (fun _ => rfl) (fun _ => rfl) [1, 2, 3]⟩

/-- C8: `prepare_send` returns `None` iff the payload is below
`chunk_threshold` (with the boundary instances: exactly
`chunk_threshold` bytes yields a task, `chunk_threshold - 1` yields
`None`), and `needs_chunked_transfer size` holds iff
`size ≥ chunk_threshold`. -/
theorem c8_chunking_threshold (md5 : Bytes → String) (cfg : Config)
    (tid filename : String) (data : Bytes) (st : MState) (size : Nat) :
    ((prepare_send md5 cfg tid filename data st).1 = none ↔
      data.length < cfg.chunk_threshold) ∧
    (data.length = cfg.chunk_threshold →
      (prepare_send md5 cfg tid filename data st).1.isSome) ∧
    (0 < cfg.chunk_threshold → data.length = cfg.chunk_threshold - 1 →
      (prepare_send md5 cfg tid filename data st).1 = none) ∧
    (needs_chunked_transfer cfg size = true ↔ cfg.chunk_threshold ≤ size) := by
  refine ⟨?_, ?_, ?_, ?_⟩
  · unfold prepare_send
    by_cases h : data.length < cfg.chunk_threshold <;> simp [h]
  · intro h
    unfold prepare_send
    simp [h]
  · intro hpos h
    have hlt : data.length < cfg.chunk_threshold := by omega
    unfold prepare_send
    simp [hlt]
  · unfold needs_chunked_transfer
    simp [ge_iff_le, decide_eq_true_iff]

/-- Witness for C8 (no hypotheses at top level, but implications
inside): the default configuration, a threshold-sized payload. -/
theorem c8_chunking_threshold_witness :
    ((prepare_send (fun _ => "h") ⟨4, 2, true⟩ "t" "f" [0, 0, 0, 0]
        {}).1 = none ↔ (4 : Nat) < 4) ∧
    ((4 : Nat) = 4 →
      (prepare_send (fun _ => "h") ⟨4, 2, true⟩ "t" "f" [0, 0, 0, 0]
        {}).1.isSome) ∧
    ((0 : Nat) < 4 → (4 : Nat) = 4 - 1 →
      (prepare_send (fun _ => "h") ⟨4, 2, true⟩ "t" "f" [0, 0, 0, 0]
        {}).1 = none) ∧
    (needs_chunked_transfer ⟨4, 2, true⟩ 7 = true ↔ (4 : Nat) ≤ 7) :=
  c8_chunking_threshold (fun _ => "h") ⟨4, 2, true⟩ "t" "f" [0, 0, 0, 0] {} 7

/-- C10: a `chunk_data` envelope for a live incoming task whose
`chunk_index` is beyond the task's chunk count is dropped — no reply,
no state change; symmetrically `get_chunk_data` on a live outgoing
task returns `none` for an out-of-range index. -/
theorem c10_out_of_range_dropped {σ : Type} (md5 : Bytes → String)
    (C : Codec σ) (cfg : Config) (st st2 : MState) (msg : ChunkDataMsg σ)
    (task : TransferTask) (buf : Bytes)
    (ht : alookup msg.transfer_id st.incoming = some task)
    (hb : alookup msg.transfer_id st.incoming_data = some buf)
    (hi : task.chunks.length ≤ msg.chunk_index)
    (tid2 : String) (j : Nat) (task2 : TransferTask) (data2 : Bytes)
    (ho : alookup tid2 st2.outgoing = some task2)
    (hd : alookup tid2 st2.outgoing_data = some data2)
    (hj : task2.chunks.length ≤ j) :
    handle_chunk_data md5 C cfg st msg = (st, none, []) ∧
    get_chunk_data C st2 tid2 j = none := by
  constructor
  · simp only [handle_chunk_data, ht, hb]
    rw [dif_neg (by omega)]
  · simp only [get_chunk_data, ho, hd]
    by_cases he : data2.isEmpty
    · simp [he]
    · simp [he, ge_iff_le, hj]

/-- A no-chunk task fixture used in witnesses. -/
def wEmptyTask : TransferTask :=
  { transfer_id := "t"
    filename := "f"
    file_size := 0
    file_hash := ""
    total_chunks := 0
    chunk_size := 1 }

/-- A manager-state fixture: `wEmptyTask` live in both directions. -/
def wStEmpty : MState :=
  { outgoing := [("t", wEmptyTask)]
    outgoing_data := [("t", [7])]
    incoming := [("t", wEmptyTask)]
    incoming_data := [("t", [])] }

/-- Witness for C10: an incoming and an outgoing task with an empty
chunk list, probed at index 0. -/
theorem c10_out_of_range_dropped_witness :
    handle_chunk_data (fun _ => "h") idCodec ⟨4, 2, true⟩ wStEmpty
      { transfer_id := "t", chunk_index := 0, data := [], compressed := false } =
      (wStEmpty, none, []) ∧
    get_chunk_data idCodec wStEmpty "t" 0 = none :=
  c10_out_of_range_dropped (fun _ => "h") idCodec ⟨4, 2, true⟩ wStEmpty wStEmpty
    ⟨"t", 0, [], false⟩ wEmptyTask []
    (by decide) (by decide) (by decide) "t" 0 wEmptyTask [7]
    (by decide) (by decide) (by decide)

/-- C6: for a known transfer and in-range index, a decode failure
yields `chunk_nack{decode_error}` and a per-chunk checksum mismatch
yields `chunk_nack{checksum_error}`; in both cases the manager state
(tasks, flags, counters, buffers) is returned unchanged. -/
theorem c6_per_chunk_failures {σ : Type} (md5 : Bytes → String)
    (C : Codec σ) (cfg : Config) (st : MState) (msg : ChunkDataMsg σ)
    (task : TransferTask) (buf : Bytes)
    (ht : alookup msg.transfer_id st.incoming = some task)
    (hb : alookup msg.transfer_id st.incoming_data = some buf)
    (h : msg.chunk_index < task.chunks.length) :
    (decode_and_decompress C msg.data msg.compressed = none →
      handle_chunk_data md5 C cfg st msg =
        (st, some (OutMsg.chunkNack msg.transfer_id msg.chunk_index
          "decode_error"), [])) ∧
    (∀ chunk_data,
      decode_and_decompress C msg.data msg.compressed = some chunk_data →
      md5 chunk_data ≠ (task.chunks.get ⟨msg.chunk_index, h⟩).checksum →
      handle_chunk_data md5 C cfg st msg =
        (st, some (OutMsg.chunkNack msg.transfer_id msg.chunk_index
          "checksum_error"), [])) := by
  constructor
  · intro hdec
    simp only [handle_chunk_data, ht, hb]
    rw [dif_pos h]
    simp only [hdec]
  · intro cd hdec hchk
    simp only [handle_chunk_data, ht, hb]
    rw [dif_pos h]
    simp only [hdec]
    rw [if_pos hchk]

/-- A one-chunk task fixture (chunk checksum `"c"`). -/
def wOneChunkTask : TransferTask :=
  { transfer_id := "t"
    filename := "f"
    file_size := 1
    file_hash := "F"
    total_chunks := 1
    chunk_size := 1
    chunks := [{ chunk_index := 0, offset := 0, size := 1, checksum := "c" }] }

/-- A manager-state fixture: `wOneChunkTask` live as an incoming
transfer with a one-byte zero buffer. -/
def wStOne : MState :=
  { incoming := [("t", wOneChunkTask)]
    incoming_data := [("t", [0])] }

/-- Witness for C6: a one-chunk task; the failure branches are checked
at that state (the constant hash `"h"` differs from checksum `"c"`). -/
theorem c6_per_chunk_failures_witness :
    (decode_and_decompress idCodec ([5] : Bytes) false = none →
      handle_chunk_data (fun _ => "h") idCodec ⟨4, 2, true⟩ wStOne
        { transfer_id := "t", chunk_index := 0, data := [5],
          compressed := false } =
        (wStOne, some (OutMsg.chunkNack "t" 0 "decode_error"), [])) ∧
    (∀ chunk_data,
      decode_and_decompress idCodec ([5] : Bytes) false = some chunk_data →
      (fun (_ : Bytes) => "h") chunk_data ≠
        (wOneChunkTask.chunks.get ⟨0, by decide⟩).checksum →
      handle_chunk_data (fun _ => "h") idCodec ⟨4, 2, true⟩ wStOne
        { transfer_id := "t", chunk_index := 0, data := [5],
          compressed := false } =
        (wStOne, some (OutMsg.chunkNack "t" 0 "checksum_error"), [])) :=
  c6_per_chunk_failures (fun _ => "h") idCodec ⟨4, 2, true⟩ wStOne
    ⟨"t", 0, [5], false⟩ wOneChunkTask [0]
    (by decide) (by decide) (by decide)

/-- C1: completion atomicity — for a live incoming transfer the
`on_complete` observer fires iff the MD5 of the assembled buffer
equals the task's `file_hash`; on match the task transitions to
`Completed` and a `transfer_complete` envelope with
`(transfer_id, filename, file_size)` is returned, on mismatch the task
transitions to `Failed` and a `transfer_error{hash_mismatch}` envelope
is returned instead. -/
theorem c1_completion_atomicity (md5 : Bytes → String) (st : MState)
    (tid : String) (task : TransferTask) (buf : Bytes)
    (ht : alookup tid st.incoming = some task)
    (hb : alookup tid st.incoming_data = some buf) :
    ((∃ d, Ev.complete tid d ∈ (complete_transfer md5 st tid).2.2) ↔
      md5 buf = task.file_hash) ∧
    (md5 buf = task.file_hash →
      (complete_transfer md5 st tid).2.1 =
        OutMsg.transferComplete tid task.filename task.file_size ∧
      Ev.complete tid buf ∈ (complete_transfer md5 st tid).2.2 ∧
      Ev.setState tid .completed ∈ (complete_transfer md5 st tid).2.2) ∧
    (md5 buf ≠ task.file_hash →
      (complete_transfer md5 st tid).2.1 =
        OutMsg.transferError tid "hash_mismatch" ∧
      alookup tid (complete_transfer md5 st tid).1.incoming =
        some { task with state := .failed
                         error_message := "File hash mismatch" } ∧
      ∀ d, Ev.complete tid d ∉ (complete_transfer md5 st tid).2.2) := by
  by_cases hm : md5 buf = task.file_hash
  · refine ⟨?_, ?_, fun hn => absurd hm hn⟩
    · simp only [complete_transfer, ht, hb, if_neg (not_not_intro hm)]
      simp [hm]
    · intro _
      simp only [complete_transfer, ht, hb, if_neg (not_not_intro hm)]
      simp
  · refine ⟨?_, fun hy => absurd hy hm, ?_⟩
    · simp only [complete_transfer, ht, hb, if_pos hm]
      simp [hm]
    · intro _
      simp only [complete_transfer, ht, hb, if_pos hm]
      refine ⟨by trivial, ?_, ?_⟩
      · exact alookup_ainsert_self tid _ st.incoming
      · intro d
        simp

/-- Witness for C1: `wStOne` assembled into the buffer `[0]`, with the
constant hash `"F"` matching the task's `file_hash`. -/
theorem c1_completion_atomicity_witness :
    ((∃ d, Ev.complete "t" d ∈
        (complete_transfer (fun _ => "F") wStOne "t").2.2) ↔
      (fun (_ : Bytes) => "F") [0] = wOneChunkTask.file_hash) ∧
    ((fun (_ : Bytes) => "F") [0] = wOneChunkTask.file_hash →
      (complete_transfer (fun _ => "F") wStOne "t").2.1 =
        OutMsg.transferComplete "t" wOneChunkTask.filename
          wOneChunkTask.file_size ∧
      Ev.complete "t" [0] ∈ (complete_transfer (fun _ => "F") wStOne "t").2.2 ∧
      Ev.setState "t" .completed ∈
        (complete_transfer (fun _ => "F") wStOne "t").2.2) ∧
    ((fun (_ : Bytes) => "F") [0] ≠ wOneChunkTask.file_hash →
      (complete_transfer (fun _ => "F") wStOne "t").2.1 =
        OutMsg.transferError "t" "hash_mismatch" ∧
      alookup "t" (complete_transfer (fun _ => "F") wStOne "t").1.incoming =
        some { wOneChunkTask with state := .failed
                                  error_message := "File hash mismatch" } ∧
      ∀ d, Ev.complete "t" d ∉
        (complete_transfer (fun _ => "F") wStOne "t").2.2) :=
  c1_completion_atomicity (fun _ => "F") wStOne "t" wOneChunkTask [0]
    (by decide) (by decide)

/-! ### Chunk-list invariants (toward C2) -/

/-- Sum of the `size` fields of a chunk list. -/
def sumSizes (l : List ChunkInfo) : Nat := (l.map (fun c => c.size)).sum

/-- The chunk list is contiguous starting at `off`: each chunk's
offset is the running total of the previous sizes. -/
def contiguousFrom : Nat → List ChunkInfo → Prop
  | _, [] => True
  | off, c :: rest => c.offset = off ∧ contiguousFrom (off + c.size) rest

theorem buildChunksAux_nil (md5 : Bytes → String) (cs fuel off idx : Nat) :
    buildChunksAux md5 cs fuel [] off idx = [] := by
  cases fuel <;> simp [buildChunksAux]

theorem buildChunksAux_contiguous (md5 : Bytes → String) (cs : Nat) :
    ∀ (fuel : Nat) (data : Bytes) (off idx : Nat),
      contiguousFrom off (buildChunksAux md5 cs fuel data off idx) := by
  intro fuel
  induction fuel with
  | zero => intro data off idx; exact trivial
  | succ n ih =>
    intro data off idx
    cases hd : data.isEmpty with
    | true => simp [buildChunksAux, hd, contiguousFrom]
    | false =>
      simp only [buildChunksAux, hd, Bool.false_eq_true, if_false]
      exact ⟨rfl, ih _ _ _⟩

theorem contiguousFrom_get_offset :
    ∀ (l : List ChunkInfo) (off : Nat), contiguousFrom off l →
      ∀ i (h : i < l.length),
        (l.get ⟨i, h⟩).offset = off + sumSizes (l.take i) := by
  intro l
  induction l with
  | nil => intro off _ i h; simp at h
  | cons c rest ih =>
    intro off hc i h
    cases i with
    | zero => simpa [sumSizes] using hc.1
    | succ j =>
      have hj := ih (off + c.size) hc.2 j (by simpa using h)
      simp only [List.get_cons_succ, List.take_succ_cons, sumSizes,
        List.map_cons, List.sum_cons] at hj ⊢
      rw [hj, Nat.add_assoc]

theorem buildChunksAux_sumSizes (md5 : Bytes → String) (cs : Nat)
    (hcs : 0 < cs) :
    ∀ (fuel : Nat) (data : Bytes) (off idx : Nat), data.length ≤ fuel →
      sumSizes (buildChunksAux md5 cs fuel data off idx) = data.length := by
  intro fuel
  induction fuel with
  | zero =>
    intro data off idx h
    have : data = [] := List.length_eq_zero.mp (by omega)
    subst this
    rfl
  | succ n ih =>
    intro data off idx h
    cases hd : data.isEmpty with
    | true =>
      have : data = [] := List.isEmpty_iff.mp hd
      subst this
      rfl
    | false =>
      have hne : data ≠ [] := by
        intro hnil; rw [hnil] at hd; simp at hd
      have hpos : 0 < data.length := List.length_pos.mpr hne
      simp only [buildChunksAux, hd, Bool.false_eq_true, if_false]
      have hrec := ih (data.drop cs) (off + (data.take cs).length) (idx + 1)
        (by rw [List.length_drop]; omega)
      simp only [sumSizes, List.map_cons, List.sum_cons] at hrec ⊢
      rw [hrec, List.length_take, List.length_drop]
      omega

theorem buildChunksAux_checksum (md5 : Bytes → String) (cs : Nat)
    (B : Bytes) :
    ∀ (fuel : Nat) (data : Bytes) (off idx : Nat), data = B.drop off →
      ∀ c ∈ buildChunksAux md5 cs fuel data off idx,
        c.checksum = md5 ((B.drop c.offset).take c.size) := by
  intro fuel
  induction fuel with
  | zero => intro data off idx _ c hc; simp [buildChunksAux] at hc
  | succ n ih =>
    intro data off idx hdata c hc
    cases hd : data.isEmpty with
    | true => simp [buildChunksAux, hd] at hc
    | false =>
      have hne : data ≠ [] := by
        intro hnil; rw [hnil] at hd; simp at hd
      simp only [buildChunksAux, hd, Bool.false_eq_true, if_false] at hc
      rcases List.mem_cons.mp hc with rfl | hmem
      · simp only [← hdata]
        congr 1
        rw [List.length_take]
        refine (List.take_eq_take.mpr ?_).symm
        omega
      · refine ih (data.drop cs) (off + (data.take cs).length) (idx + 1)
          ?_ c hmem
        have hBL : data.length = B.length - off := by
          rw [hdata, List.length_drop]
        have hoff : off < B.length := by
          by_contra hge
          push_neg at hge
          have : data = [] := by
            rw [hdata]; exact List.drop_eq_nil_of_le hge
          exact hne this
        have hdl : (B.drop off).length = data.length := by rw [hdata]
        rw [hdata, List.drop_drop, List.length_take]
        by_cases hlen : cs ≤ data.length
        · congr 1; omega
        · push_neg at hlen
          rw [List.drop_eq_nil_of_le (by omega),
            List.drop_eq_nil_of_le (by omega)]

theorem buildChunksAux_dropLast_size (md5 : Bytes → String) (cs : Nat) :
    ∀ (fuel : Nat) (data : Bytes) (off idx : Nat),
      ∀ c ∈ (buildChunksAux md5 cs fuel data off idx).dropLast,
        c.size = cs := by
  intro fuel
  induction fuel with
  | zero => intro data off idx c hc; simp [buildChunksAux] at hc
  | succ n ih =>
    intro data off idx c hc
    cases hd : data.isEmpty with
    | true => simp [buildChunksAux, hd] at hc
    | false =>
      simp only [buildChunksAux, hd, Bool.false_eq_true, if_false] at hc
      cases hr : buildChunksAux md5 cs n (data.drop cs)
          (off + (data.take cs).length) (idx + 1) with
      | nil => rw [hr] at hc; simp at hc
      | cons r rs =>
        rw [hr, List.dropLast_cons₂] at hc
        rcases List.mem_cons.mp hc with rfl | hmem
        · have hdrop : data.drop cs ≠ [] := by
            intro hnil
            rw [hnil, buildChunksAux_nil] at hr
            simp at hr
          have hlen : cs < data.length := by
            by_contra hle
            push_neg at hle
            exact hdrop (List.drop_eq_nil_of_le hle)
          simp only [List.length_take]
          omega
        · exact ih _ _ _ c (by rw [hr]; exact hmem)

theorem buildChunksAux_length (md5 : Bytes → String) (cs : Nat)
    (hcs : 0 < cs) :
    ∀ (fuel : Nat) (data : Bytes) (off idx : Nat), data.length ≤ fuel →
      (buildChunksAux md5 cs fuel data off idx).length =
        (data.length + cs - 1) / cs := by
  intro fuel
  induction fuel with
  | zero =>
    intro data off idx h
    have hnil : data = [] := List.length_eq_zero.mp (by omega)
    subst hnil
    simp only [buildChunksAux, List.length_nil]
    exact (Nat.div_eq_of_lt (by omega)).symm
  | succ n ih =>
    intro data off idx h
    cases hd : data.isEmpty with
    | true =>
      have hnil : data = [] := List.isEmpty_iff.mp hd
      subst hnil
      rw [buildChunksAux_nil]
      simp only [List.length_nil]
      exact (Nat.div_eq_of_lt (by omega)).symm
    | false =>
      have hne : data ≠ [] := by
        intro hnil; rw [hnil] at hd; simp at hd
      have hpos : 0 < data.length := List.length_pos.mpr hne
      simp only [buildChunksAux, hd, Bool.false_eq_true, if_false,
        List.length_cons]
      rw [ih (data.drop cs) (off + (data.take cs).length) (idx + 1)
        (by rw [List.length_drop]; omega)]
      rw [List.length_drop]
      have e1 : data.length + cs - 1 = (data.length - 1) + cs := by omega
      rw [e1, Nat.add_div_right _ hcs]
      by_cases hlc : cs ≤ data.length
      · have e2 : data.length - cs + cs - 1 = data.length - 1 := by omega
        rw [e2]
      · push_neg at hlc
        have e2 : data.length - cs + cs - 1 = cs - 1 := by omega
        rw [e2, Nat.div_eq_of_lt (by omega), Nat.div_eq_of_lt (by omega)]

theorem buildChunksAux_getLast_size (md5 : Bytes → String) (cs : Nat)
    (hcs : 0 < cs) :
    ∀ (fuel : Nat) (data : Bytes) (off idx : Nat), data.length ≤ fuel →
      data ≠ [] →
      ∃ c, (buildChunksAux md5 cs fuel data off idx).getLast? = some c ∧
        c.size = (if data.length % cs = 0 then cs else data.length % cs) := by
  intro fuel
  induction fuel with
  | zero =>
    intro data off idx h hne
    exact absurd (List.length_eq_zero.mp (by omega)) hne
  | succ n ih =>
    intro data off idx h hne
    cases hd : data.isEmpty with
    | true => exact absurd (List.isEmpty_iff.mp hd) hne
    | false =>
      have hpos : 0 < data.length := List.length_pos.mpr hne
      simp only [buildChunksAux, hd, Bool.false_eq_true, if_false]
      by_cases hlc : data.length ≤ cs
      · have hdrop : data.drop cs = [] := List.drop_eq_nil_of_le hlc
        rw [hdrop, buildChunksAux_nil]
        refine ⟨{ chunk_index := idx, offset := off,
                  size := (data.take cs).length,
                  checksum := md5 (data.take cs) }, rfl, ?_⟩
        simp only [List.length_take]
        by_cases hmod : data.length % cs = 0
        · rw [if_pos hmod]
          have : data.length = cs := by
            rcases Nat.lt_or_ge data.length cs with hlt | hge
            · rw [Nat.mod_eq_of_lt hlt] at hmod; omega
            · omega
          omega
        · rw [if_neg hmod]
          have hlt : data.length < cs := by
            rcases Nat.lt_or_ge data.length cs with hlt | hge
            · exact hlt
            · have he : data.length = cs := by omega
              rw [he, Nat.mod_self] at hmod
              exact absurd rfl hmod
          rw [Nat.mod_eq_of_lt hlt]
          omega
      · push_neg at hlc
        have hdne : data.drop cs ≠ [] := by
          intro hnil
          have hl := congrArg List.length hnil
          rw [List.length_drop] at hl
          simp at hl
          omega
        obtain ⟨c, hc, hsize⟩ := ih (data.drop cs)
          (off + (data.take cs).length) (idx + 1)
          (by rw [List.length_drop]; omega) hdne
        refine ⟨c, ?_, ?_⟩
        · cases hr : buildChunksAux md5 cs n (data.drop cs)
              (off + (data.take cs).length) (idx + 1) with
          | nil => rw [hr] at hc; simp at hc
          | cons r rs =>
            rw [hr] at hc
            simpa [List.getLast?] using hc
        · have hms : (data.length - cs) % cs = data.length % cs :=
            (Nat.mod_eq_sub_mod (by omega)).symm
          rw [hsize, List.length_drop, hms]

theorem prepare_send_task (md5 : Bytes → String) (cfg : Config)
    (tid filename : String) (data : Bytes) (st : MState)
    (task : TransferTask)
    (hsome : (prepare_send md5 cfg tid filename data st).1 = some task) :
    task.chunks = buildChunks md5 cfg.chunk_size data ∧
    task.total_chunks = (buildChunks md5 cfg.chunk_size data).length ∧
    task.file_size = data.length ∧ cfg.chunk_threshold ≤ data.length := by
  by_cases h : data.length < cfg.chunk_threshold
  · rw [prepare_send, if_pos h] at hsome
    exact absurd hsome (by simp)
  · rw [prepare_send, if_neg h] at hsome
    have htask := Option.some.inj hsome
    subst htask
    exact ⟨rfl, rfl, rfl, by omega⟩

/-- C2: invariants of the chunk list built by `prepare_send` — the
chunks tile `[0, len(B))` contiguously (each offset is the sum of the
previous sizes and the sizes sum to the length), each checksum is the
hash of its window, all chunks but the last have size `chunk_size`,
an exact multiple yields `total_chunks = len / chunk_size` with a full
last chunk, and otherwise the last chunk is strictly smaller. -/
theorem c2_chunk_invariants (md5 : Bytes → String) (cfg : Config)
    (tid filename : String) (data : Bytes) (st : MState)
    (task : TransferTask)
    (hcs : 0 < cfg.chunk_size) (hth : 0 < cfg.chunk_threshold)
    (hsome : (prepare_send md5 cfg tid filename data st).1 = some task) :
    (∀ i (h : i < task.chunks.length),
      (task.chunks.get ⟨i, h⟩).offset = sumSizes (task.chunks.take i)) ∧
    sumSizes task.chunks = data.length ∧
    (∀ c ∈ task.chunks, c.checksum = md5 ((data.drop c.offset).take c.size)) ∧
    (∀ c ∈ task.chunks.dropLast, c.size = cfg.chunk_size) ∧
    (cfg.chunk_size ∣ data.length →
      task.total_chunks = data.length / cfg.chunk_size ∧
      ∃ c, task.chunks.getLast? = some c ∧ c.size = cfg.chunk_size) ∧
    (¬ cfg.chunk_size ∣ data.length →
      ∃ c, task.chunks.getLast? = some c ∧
        c.size = data.length % cfg.chunk_size ∧
        c.size < cfg.chunk_size) := by
  obtain ⟨hchunks, htot, _, hthle⟩ :=
    prepare_send_task md5 cfg tid filename data st task hsome
  have hpos : 0 < data.length := by omega
  have hne : data ≠ [] := by
    intro hnil; rw [hnil] at hpos; simp at hpos
  rw [hchunks, htot]
  set cs := cfg.chunk_size with hcsdef
  refine ⟨?_, ?_, ?_, ?_, ?_, ?_⟩
  · intro i h
    have hcont := buildChunksAux_contiguous md5 cs data.length data 0 0
    have := contiguousFrom_get_offset _ 0 hcont i h
    simpa using this
  · exact buildChunksAux_sumSizes md5 cs hcs data.length data 0 0 le_rfl
  · intro c hc
    exact buildChunksAux_checksum md5 cs data data.length data 0 0
      (by simp) c hc
  · intro c hc
    exact buildChunksAux_dropLast_size md5 cs data.length data 0 0 c hc
  · intro hdvd
    constructor
    · rw [buildChunks, buildChunksAux_length md5 cs hcs data.length data 0 0 le_rfl]
      obtain ⟨k, hk⟩ := hdvd
      have e1 : data.length + cs - 1 = (cs - 1) + cs * k := by
        rw [hk]
        generalize cs * k = t
        omega
      rw [e1, Nat.add_mul_div_left _ _ hcs, Nat.div_eq_of_lt (by omega),
        hk, Nat.mul_div_cancel_left _ hcs]
      omega
    · obtain ⟨c, hc, hsize⟩ := buildChunksAux_getLast_size md5 cs hcs
        data.length data 0 0 le_rfl hne
      refine ⟨c, hc, ?_⟩
      rw [hsize, if_pos (Nat.dvd_iff_mod_eq_zero.mp hdvd)]
  · intro hndvd
    obtain ⟨c, hc, hsize⟩ := buildChunksAux_getLast_size md5 cs hcs
      data.length data 0 0 le_rfl hne
    have hmod : data.length % cs ≠ 0 := by
      intro h0
      exact hndvd (Nat.dvd_iff_mod_eq_zero.mpr h0)
    refine ⟨c, hc, ?_, ?_⟩
    · rw [hsize, if_neg hmod]
    · rw [hsize, if_neg hmod]
      exact Nat.mod_lt _ hcs

/-- The task `prepare_send` builds for payload `[1, 2, 3]`, threshold 2,
chunk size 2 and the constant hash `"X"`. -/
def wC2Task : TransferTask :=
  { transfer_id := "t"
    filename := "f"
    file_size := 3
    file_hash := "X"
    total_chunks := 2
    chunk_size := 2
    chunks := [{ chunk_index := 0, offset := 0, size := 2, checksum := "X" },
               { chunk_index := 1, offset := 2, size := 1, checksum := "X" }]
    state := .pending }

/-- Witness for C2 at payload `[1, 2, 3]` with chunk size 2. -/
theorem c2_chunk_invariants_witness :
    (0 : Nat) < 2 ∧
    (prepare_send (fun _ => "X") ⟨2, 2, true⟩ "t" "f" [1, 2, 3] {}).1 =
      some wC2Task ∧
    ((∀ i (h : i < wC2Task.chunks.length),
      (wC2Task.chunks.get ⟨i, h⟩).offset = sumSizes (wC2Task.chunks.take i)) ∧
    sumSizes wC2Task.chunks = ([1, 2, 3] : Bytes).length ∧
    (∀ c ∈ wC2Task.chunks,
      c.checksum = (fun (_ : Bytes) => "X")
        ((([1, 2, 3] : Bytes).drop c.offset).take c.size)) ∧
    (∀ c ∈ wC2Task.chunks.dropLast, c.size = 2) ∧
    (2 ∣ ([1, 2, 3] : Bytes).length →
      wC2Task.total_chunks = ([1, 2, 3] : Bytes).length / 2 ∧
      ∃ c, wC2Task.chunks.getLast? = some c ∧ c.size = 2) ∧
    (¬ 2 ∣ ([1, 2, 3] : Bytes).length →
      ∃ c, wC2Task.chunks.getLast? = some c ∧
        c.size = ([1, 2, 3] : Bytes).length % 2 ∧ c.size < 2)) :=
  ⟨by decide, by decide,
   c2_chunk_invariants (fun _ => "X") ⟨2, 2, true⟩ "t" "f" [1, 2, 3] {}
     wC2Task (by decide) (by decide) (by decide)⟩

/-- C5: echo suppression — an inbound clipboard envelope whose hash
equals the session's `_last_hash` is discarded before delivery; an
outbound send with that hash sends nothing; in the accepting and
sending cases `_last_hash` is updated to the processed hash; and after
the session emits an item with hash `h`, an inbound envelope with hash
`h` never produces a received-item event. -/
theorem c5_echo_suppression (C : Codec String)
    (utf8 : Bytes → Option String) (s : Session) (msg : ClipMsg)
    (h : String) :
    (msg.content_hash = s.last_hash →
      handle_clipboard_message C utf8 s msg = (s, none)) ∧
    (msg.content_hash ≠ s.last_hash →
      (handle_clipboard_message C utf8 s msg).1.last_hash =
        msg.content_hash) ∧
    (h = s.last_hash → send_clipboard_item s h = (s, false)) ∧
    (h ≠ s.last_hash →
      (send_clipboard_item s h).1.last_hash = h ∧
      (send_clipboard_item s h).2 = true) ∧
    (handle_clipboard_message C utf8 (send_clipboard_item s h).1
        { msg with content_hash := h }).2 = none := by
  refine ⟨?_, ?_, ?_, ?_, ?_⟩
  · intro he; simp [handle_clipboard_message, he]
  · intro hne; simp [handle_clipboard_message, hne]
  · intro he; simp [send_clipboard_item, he]
  · intro hne; simp [send_clipboard_item, hne]
  · have hl : (send_clipboard_item s h).1.last_hash = h := by
      by_cases he : h = s.last_hash
      · simp [send_clipboard_item, he]
      · simp [send_clipboard_item, he]
    simp [handle_clipboard_message, hl]

/-- A trivial `String`-typed codec for witnessing session theorems. -/
def strCodec : Codec String :=
  { b64encode := fun _ => ""
    b64decode := fun _ => some []
    zstdCompress := id
    zstdDecompress := some }

/-- Witness for C5 at a fresh session, hash `"h1"`, and a text
envelope with hash `"h1"`. -/
theorem c5_echo_suppression_witness :
    (("h1" : String) = ({} : Session).last_hash →
      handle_clipboard_message strCodec (fun _ => some "") {}
        { content_type := .text, content_hash := "h1" } = ({}, none)) ∧
    (("h1" : String) ≠ ({} : Session).last_hash →
      (handle_clipboard_message strCodec (fun _ => some "") {}
        { content_type := .text, content_hash := "h1" }).1.last_hash =
        "h1") ∧
    (("h1" : String) = ({} : Session).last_hash →
      send_clipboard_item {} "h1" = ({}, false)) ∧
    (("h1" : String) ≠ ({} : Session).last_hash →
      (send_clipboard_item {} "h1").1.last_hash = "h1" ∧
      (send_clipboard_item {} "h1").2 = true) ∧
    (handle_clipboard_message strCodec (fun _ => some "")
        (send_clipboard_item {} "h1").1
        { ({ content_type := .text, content_hash := "h1" } : ClipMsg) with
            content_hash := "h1" }).2 = none :=
  c5_echo_suppression strCodec (fun _ => some "") {}
    { content_type := .text, content_hash := "h1" } "h1"

/-! ### Resume idempotency (toward C4) -/

/-- Applying a sequence of `chunk_data` envelopes to the manager. -/
def applyChunkMsgs (md5 : Bytes → String) (C : Codec σ) (cfg : Config) :
    MState → List (ChunkDataMsg σ) → MState
  | st, [] => st
  | st, m :: ms =>
    applyChunkMsgs md5 C cfg (handle_chunk_data md5 C cfg st m).1 ms

theorem save_partial_data_incoming (cfg : Config) (st : MState)
    (tid : String) : (save_partial_data cfg st tid).incoming = st.incoming := by
  unfold save_partial_data
  split
  · split <;> rfl
  · rfl

theorem ite_save_partial_incoming (cfg : Config) (x : MState) (tid : String)
    (b : Prop) [Decidable b] :
    (if b then save_partial_data cfg x tid else x).incoming = x.incoming := by
  split
  · exact save_partial_data_incoming cfg x tid
  · rfl

theorem set_chunks_rel (chunks : List ChunkInfo) (i : Nat)
    (hi : i < chunks.length) :
    ∀ c ∈ chunks.set i { chunks.get ⟨i, hi⟩ with transferred := true },
      ∃ d ∈ chunks, c.chunk_index = d.chunk_index := by
  intro c hc
  rcases List.mem_or_eq_of_mem_set hc with hmem | rfl
  · exact ⟨c, hmem, rfl⟩
  · exact ⟨chunks.get ⟨i, hi⟩, List.get_mem _ _ _, rfl⟩

theorem complete_transfer_lookup (md5 : Bytes → String) (st : MState)
    (mtid tid : String) (t : TransferTask)
    (h : alookup tid (complete_transfer md5 st mtid).1.incoming = some t) :
    alookup tid st.incoming = some t ∨
    (tid = mtid ∧ ∃ t0, alookup tid st.incoming = some t0 ∧
      t.chunks = t0.chunks) := by
  cases ha : alookup mtid st.incoming with
  | none =>
    simp only [complete_transfer, ha] at h
    exact Or.inl h
  | some task =>
    cases hb : alookup mtid st.incoming_data with
    | none =>
      simp only [complete_transfer, ha, hb] at h
      exact Or.inl h
    | some buf =>
      simp only [complete_transfer, ha, hb] at h
      by_cases hm : md5 buf ≠ task.file_hash
      · rw [if_pos hm] at h
        by_cases he : tid = mtid
        · subst he
          rw [alookup_ainsert_self] at h
          have ht := (Option.some.inj h).symm
          refine Or.inr ⟨rfl, task, ha, ?_⟩
          rw [ht]
        · rw [alookup_ainsert_ne mtid tid he] at h
          exact Or.inl h
      · rw [if_neg hm] at h
        by_cases he : tid = mtid
        · subst he
          simp only [cleanup_transfer] at h
          rw [alookup_aerase_self] at h
          exact absurd h (by simp)
        · simp only [cleanup_transfer] at h
          rw [alookup_aerase_ne mtid tid he, alookup_ainsert_ne mtid tid he] at h
          exact Or.inl h

theorem handle_chunk_data_incoming_lookup {σ : Type} (md5 : Bytes → String)
    (C : Codec σ) (cfg : Config) (st : MState) (msg : ChunkDataMsg σ)
    (tid : String) (t : TransferTask)
    (h : alookup tid (handle_chunk_data md5 C cfg st msg).1.incoming =
      some t) :
    ∃ t0, alookup tid st.incoming = some t0 ∧
      ∀ c ∈ t.chunks, ∃ d ∈ t0.chunks, c.chunk_index = d.chunk_index := by
  have hid : ∀ (t' : TransferTask),
      ∀ c ∈ t'.chunks, ∃ d ∈ t'.chunks, c.chunk_index = d.chunk_index :=
    fun _ c hc => ⟨c, hc, rfl⟩
  cases h1 : alookup msg.transfer_id st.incoming with
  | none =>
    simp only [handle_chunk_data, h1] at h
    exact ⟨t, h, hid t⟩
  | some task =>
    cases h2 : alookup msg.transfer_id st.incoming_data with
    | none =>
      simp only [handle_chunk_data, h1, h2] at h
      exact ⟨t, h, hid t⟩
    | some buf =>
      simp only [handle_chunk_data, h1, h2] at h
      by_cases h3 : msg.chunk_index < task.chunks.length
      · rw [dif_pos h3] at h
        cases h4 : decode_and_decompress C msg.data msg.compressed with
        | none =>
          simp only [h4] at h
          exact ⟨t, h, hid t⟩
        | some cd =>
          simp only [h4] at h
          by_cases h5 : md5 cd ≠
              (task.chunks.get ⟨msg.chunk_index, h3⟩).checksum
          · rw [if_pos h5] at h
            exact ⟨t, h, hid t⟩
          · rw [if_neg h5] at h
            by_cases h6 : task.transferred_chunks + 1 ≥ task.total_chunks
            · rw [if_pos h6] at h
              rcases complete_transfer_lookup md5 _ msg.transfer_id tid t h
                with hs | ⟨he, t0, ht0, hch⟩
              · rw [ite_save_partial_incoming] at hs
                by_cases he : tid = msg.transfer_id
                · subst he
                  rw [alookup_ainsert_self] at hs
                  have ht := (Option.some.inj hs).symm
                  refine ⟨task, h1, ?_⟩
                  rw [ht]
                  exact set_chunks_rel task.chunks msg.chunk_index h3
                · rw [alookup_ainsert_ne msg.transfer_id tid he] at hs
                  exact ⟨t, hs, hid t⟩
              · subst he
                rw [ite_save_partial_incoming, alookup_ainsert_self] at ht0
                have ht := (Option.some.inj ht0).symm
                refine ⟨task, h1, ?_⟩
                rw [hch, ht]
                exact set_chunks_rel task.chunks msg.chunk_index h3
            · rw [if_neg h6] at h
              rw [ite_save_partial_incoming] at h
              by_cases he : tid = msg.transfer_id
              · subst he
                rw [alookup_ainsert_self] at h
                have ht := (Option.some.inj h).symm
                refine ⟨task, h1, ?_⟩
                rw [ht]
                exact set_chunks_rel task.chunks msg.chunk_index h3
              · rw [alookup_ainsert_ne msg.transfer_id tid he] at h
                exact ⟨t, h, hid t⟩
      · rw [dif_neg h3] at h
        exact ⟨t, h, hid t⟩

theorem applyChunkMsgs_incoming_lookup {σ : Type} (md5 : Bytes → String)
    (C : Codec σ) (cfg : Config) (tid : String) :
    ∀ (msgs : List (ChunkDataMsg σ)) (st : MState) (t : TransferTask),
      alookup tid (applyChunkMsgs md5 C cfg st msgs).incoming = some t →
      ∃ t0, alookup tid st.incoming = some t0 ∧
        ∀ c ∈ t.chunks, ∃ d ∈ t0.chunks, c.chunk_index = d.chunk_index := by
  intro msgs
  induction msgs with
  | nil => intro st t h; exact ⟨t, h, fun c hc => ⟨c, hc, rfl⟩⟩
  | cons m ms ih =>
    intro st t h
    obtain ⟨t1, ht1, hrel1⟩ := ih (handle_chunk_data md5 C cfg st m).1 t h
    obtain ⟨t0, ht0, hrel0⟩ :=
      handle_chunk_data_incoming_lookup md5 C cfg st m tid t1 ht1
    refine ⟨t0, ht0, ?_⟩
    intro c hc
    obtain ⟨d, hd, hcd⟩ := hrel1 c hc
    obtain ⟨e, he, hde⟩ := hrel0 d hd
    exact ⟨e, he, by rw [hcd, hde]⟩

/-- C4 (amended): resume idempotency of `handle_transfer_init` for
init envelopes whose chunk descriptors are indexed below
`total_chunks` (as every envelope produced by
`get_transfer_init_message` is) — the first call on a fresh
`transfer_id` returns the full range `[0, total_chunks)`, a call
matching an existing task with equal `file_hash` returns exactly the
indices of chunks not yet marked transferred, and a second call after
any sequence of `handle_chunk_data` calls returns a subset of the
first call's list. -/
theorem c4_resume_idempotency {σ : Type} (md5 : Bytes → String)
    (C : Codec σ) (cfg : Config) (st0 : MState) (env : InitEnv)
    (msgs : List (ChunkDataMsg σ))
    (hwf : ∀ d ∈ env.chunks, d.chunk_index < env.total_chunks)
    (hfresh : alookup env.transfer_id st0.incoming = none) :
    (handle_transfer_init st0 env).2.1 = List.range env.total_chunks ∧
    (∀ (st : MState) (t : TransferTask),
      alookup env.transfer_id st.incoming = some t →
      t.file_hash = env.file_hash →
      (handle_transfer_init st env).2.1 = t.pendingChunkIndices) ∧
    (∀ i ∈ (handle_transfer_init
        (applyChunkMsgs md5 C cfg (handle_transfer_init st0 env).1 msgs)
        env).2.1,
      i ∈ (handle_transfer_init st0 env).2.1) := by
  have hfirst : handle_transfer_init st0 env = init_new_transfer st0 env := by
    simp only [handle_transfer_init, hfresh]
  have hneed1 : (handle_transfer_init st0 env).2.1 =
      List.range env.total_chunks := by
    rw [hfirst]; rfl
  refine ⟨hneed1, ?_, ?_⟩
  · intro st t ht heq
    simp only [handle_transfer_init, ht, if_pos heq]
  · intro i hi
    rw [hneed1, List.mem_range]
    have hlook1 : ∃ tN,
        alookup env.transfer_id (handle_transfer_init st0 env).1.incoming =
          some tN ∧
        ∀ c ∈ tN.chunks, c.chunk_index < env.total_chunks := by
      rw [hfirst]
      simp only [init_new_transfer]
      refine ⟨_, alookup_ainsert_self _ _ _, ?_⟩
      intro c hc
      obtain ⟨d, hd, rfl⟩ := List.mem_map.mp hc
      exact hwf d hd
    obtain ⟨tN, htN, htNwf⟩ := hlook1
    generalize hmid : applyChunkMsgs md5 C cfg
      (handle_transfer_init st0 env).1 msgs = stMid at hi
    cases h2 : alookup env.transfer_id stMid.incoming with
    | none =>
      simp only [handle_transfer_init, h2, init_new_transfer] at hi
      exact List.mem_range.mp hi
    | some t =>
      by_cases hh : t.file_hash = env.file_hash
      · simp only [handle_transfer_init, h2, if_pos hh] at hi
        obtain ⟨t0, ht0, hrel⟩ := applyChunkMsgs_incoming_lookup md5 C cfg
          env.transfer_id msgs _ t (by rw [hmid]; exact h2)
        rw [htN] at ht0
        have ht0e := Option.some.inj ht0
        simp only [TransferTask.pendingChunkIndices, List.mem_map,
          List.mem_filter] at hi
        obtain ⟨c, ⟨hcmem, _⟩, rfl⟩ := hi
        obtain ⟨d, hd, hix⟩ := hrel c hcmem
        rw [hix]
        exact htNwf d (ht0e ▸ hd)
      · simp only [handle_transfer_init, h2, if_neg hh,
          init_new_transfer] at hi
        exact List.mem_range.mp hi

/-- A malformed init envelope: one chunk descriptor whose
`chunk_index` (99) is not below `total_chunks` (1). -/
def wBadEnv : InitEnv :=
  { transfer_id := "t"
    filename := "f"
    file_size := 1
    file_hash := "F"
    total_chunks := 1
    chunk_size := 1
    chunks := [{ chunk_index := 99, offset := 0, size := 1,
                 checksum := "c" }] }

/-- Counterexample for C4 as stated: for the malformed envelope
`wBadEnv` the second `handle_transfer_init` call returns `[99]`,
which is not a subset of the first call's `[0]`. -/
theorem c4_counterexample :
    ¬ (∀ i ∈ (handle_transfer_init
          (handle_transfer_init ({} : MState) wBadEnv).1 wBadEnv).2.1,
        i ∈ (handle_transfer_init ({} : MState) wBadEnv).2.1) := by
  decide

/-- A well-formed two-chunk init envelope for the C4 witness. -/
def wGoodEnv : InitEnv :=
  { transfer_id := "t"
    filename := "f"
    file_size := 2
    file_hash := "F"
    total_chunks := 2
    chunk_size := 1
    chunks := [{ chunk_index := 0, offset := 0, size := 1, checksum := "a" },
               { chunk_index := 1, offset := 1, size := 1, checksum := "b" }] }

/-- Witness for C4 (amended) at `wGoodEnv` with one interleaved chunk
delivery. -/
theorem c4_resume_idempotency_witness :
    (handle_transfer_init ({} : MState) wGoodEnv).2.1 =
      List.range wGoodEnv.total_chunks ∧
    (∀ (st : MState) (t : TransferTask),
      alookup wGoodEnv.transfer_id st.incoming = some t →
      t.file_hash = wGoodEnv.file_hash →
      (handle_transfer_init st wGoodEnv).2.1 = t.pendingChunkIndices) ∧
    (∀ i ∈ (handle_transfer_init
        (applyChunkMsgs (fun _ => "a") idCodec ⟨4, 1, true⟩
          (handle_transfer_init ({} : MState) wGoodEnv).1
          [{ transfer_id := "t", chunk_index := 0, data := [5],
             compressed := false }])
        wGoodEnv).2.1,
      i ∈ (handle_transfer_init ({} : MState) wGoodEnv).2.1) :=
  c4_resume_idempotency (fun _ => "a") idCodec ⟨4, 1, true⟩ {} wGoodEnv
    [{ transfer_id := "t", chunk_index := 0, data := [5],
       compressed := false }]
    (by decide) (by decide)

/-! ### Counter/flag consistency (toward C9) -/

/-- Number of chunks whose `transferred` flag is set. -/
def countTransferred (l : List ChunkInfo) : Nat :=
  (l.filter (fun c => c.transferred)).length

theorem countTransferred_cons (c : ChunkInfo) (l : List ChunkInfo) :
    countTransferred (c :: l) =
      (if c.transferred then 1 else 0) + countTransferred l := by
  rw [countTransferred, countTransferred, List.filter_cons]
  cases hc : c.transferred
  · simp [hc]
  · simp [hc, Nat.add_comm]

theorem countTransferred_set_true :
    ∀ (l : List ChunkInfo) (i : Nat) (hi : i < l.length),
      (l.get ⟨i, hi⟩).transferred = false →
      countTransferred (l.set i { l.get ⟨i, hi⟩ with transferred := true }) =
        countTransferred l + 1 := by
  intro l
  induction l with
  | nil => intro i hi; simp at hi
  | cons c rest ih =>
    intro i hi hnot
    cases i with
    | zero =>
      simp only [List.get] at hnot
      simp only [List.get, List.set_cons_zero]
      rw [countTransferred_cons, countTransferred_cons, hnot]
      simp [Nat.add_comm]
    | succ j =>
      simp only [List.get_cons_succ] at hnot
      simp only [List.get_cons_succ, List.set_cons_succ]
      rw [countTransferred_cons, countTransferred_cons,
        ih j (by simpa using hi) hnot]
      omega

theorem countTransferred_le (l : List ChunkInfo) :
    countTransferred l ≤ l.length :=
  List.length_filter_le _ l

theorem progress_le_100 (t : TransferTask)
    (hle : t.transferred_chunks ≤ t.total_chunks) : t.progress ≤ 100 := by
  rw [TransferTask.progress]
  split
  · norm_num
  · rename_i h0
    have hpos : (0 : ℚ) < t.total_chunks := by
      have := Nat.pos_of_ne_zero h0
      exact_mod_cast this
    have h1 : (t.transferred_chunks : ℚ) / t.total_chunks ≤ 1 := by
      rw [div_le_one hpos]
      exact_mod_cast hle
    calc (t.transferred_chunks : ℚ) / t.total_chunks * 100 ≤ 1 * 100 :=
          mul_le_mul_of_nonneg_right h1 (by norm_num)
      _ = 100 := by norm_num

theorem complete_transfer_lookup_inv (md5 : Bytes → String) (st : MState)
    (mtid tid : String) (t : TransferTask)
    (h : alookup tid (complete_transfer md5 st mtid).1.incoming = some t) :
    alookup tid st.incoming = some t ∨
    (∃ t0, alookup tid st.incoming = some t0 ∧ t.chunks = t0.chunks ∧
      t.transferred_chunks = t0.transferred_chunks) := by
  cases ha : alookup mtid st.incoming with
  | none =>
    simp only [complete_transfer, ha] at h
    exact Or.inl h
  | some task =>
    cases hb : alookup mtid st.incoming_data with
    | none =>
      simp only [complete_transfer, ha, hb] at h
      exact Or.inl h
    | some buf =>
      simp only [complete_transfer, ha, hb] at h
      by_cases hm : md5 buf ≠ task.file_hash
      · rw [if_pos hm] at h
        by_cases he : tid = mtid
        · subst he
          rw [alookup_ainsert_self] at h
          have ht := (Option.some.inj h).symm
          refine Or.inr ⟨task, ha, ?_, ?_⟩ <;> rw [ht]
        · rw [alookup_ainsert_ne mtid tid he] at h
          exact Or.inl h
      · rw [if_neg hm] at h
        by_cases he : tid = mtid
        · subst he
          simp only [cleanup_transfer] at h
          rw [alookup_aerase_self] at h
          exact absurd h (by simp)
        · simp only [cleanup_transfer] at h
          rw [alookup_aerase_ne mtid tid he,
            alookup_ainsert_ne mtid tid he] at h
          exact Or.inl h

/-- C9 (amended): `transferred_chunks` equals the number of set
`transferred` flags as long as no call re-marks an already-transferred
chunk — `mark_chunk_sent` and `handle_chunk_data` each preserve the
equality when their target chunk's flag is still clear (so it holds
after any sequence of such calls), and under the equality the counter
is bounded by `total_chunks` and the derived progress by 100%. -/
theorem c9_counter_flag_consistency {σ : Type} (md5 : Bytes → String)
    (C : Codec σ) (cfg : Config) (st : MState) (tid : String) (i : Nat)
    (msg : ChunkDataMsg σ) :
    (∀ task, alookup tid st.outgoing = some task →
      task.transferred_chunks = countTransferred task.chunks →
      ∀ (h : i < task.chunks.length),
      (task.chunks.get ⟨i, h⟩).transferred = false →
      ∀ t', alookup tid (mark_chunk_sent st tid i).1.outgoing = some t' →
        t'.transferred_chunks = countTransferred t'.chunks) ∧
    (∀ task, alookup msg.transfer_id st.incoming = some task →
      task.transferred_chunks = countTransferred task.chunks →
      ∀ (h : msg.chunk_index < task.chunks.length),
      (task.chunks.get ⟨msg.chunk_index, h⟩).transferred = false →
      ∀ t', alookup msg.transfer_id
          (handle_chunk_data md5 C cfg st msg).1.incoming = some t' →
        t'.transferred_chunks = countTransferred t'.chunks) ∧
    (∀ t : TransferTask, t.transferred_chunks = countTransferred t.chunks →
      t.total_chunks = t.chunks.length →
      t.transferred_chunks ≤ t.total_chunks ∧ t.progress ≤ 100) := by
  refine ⟨?_, ?_, ?_⟩
  · intro task ht hinv h hnot t' ht'
    simp only [mark_chunk_sent, ht] at ht'
    rw [dif_pos h] at ht'
    by_cases hc : task.transferred_chunks + 1 ≥ task.total_chunks
    · rw [if_pos hc, alookup_ainsert_self] at ht'
      have tEq := (Option.some.inj ht').symm
      rw [tEq]
      show task.transferred_chunks + 1 = countTransferred
        (task.chunks.set i { task.chunks.get ⟨i, h⟩ with transferred := true })
      rw [countTransferred_set_true task.chunks i h hnot]
      omega
    · rw [if_neg hc, alookup_ainsert_self] at ht'
      have tEq := (Option.some.inj ht').symm
      rw [tEq]
      show task.transferred_chunks + 1 = countTransferred
        (task.chunks.set i { task.chunks.get ⟨i, h⟩ with transferred := true })
      rw [countTransferred_set_true task.chunks i h hnot]
      omega
  · intro task ht hinv h hnot t' ht'
    cases h2 : alookup msg.transfer_id st.incoming_data with
    | none =>
      simp only [handle_chunk_data, ht, h2] at ht'
      have heq : task = t' := by
        first
        | exact Option.some.inj ht'
        | exact Option.some.inj (ht.symm.trans ht')
      rw [← heq]
      exact hinv
    | some buf =>
      simp only [handle_chunk_data, ht, h2] at ht'
      rw [dif_pos h] at ht'
      cases h4 : decode_and_decompress C msg.data msg.compressed with
      | none =>
        simp only [h4] at ht'
        have heq : task = t' := by
          first
          | exact Option.some.inj ht'
          | exact Option.some.inj (ht.symm.trans ht')
        rw [← heq]
        exact hinv
      | some cd =>
        simp only [h4] at ht'
        by_cases h5 : md5 cd ≠
            (task.chunks.get ⟨msg.chunk_index, h⟩).checksum
        · rw [if_pos h5] at ht'
          have := ht.symm.trans ht'
          rw [← Option.some.inj this]
          exact hinv
        · rw [if_neg h5] at ht'
          by_cases h6 : task.transferred_chunks + 1 ≥ task.total_chunks
          · rw [if_pos h6] at ht'
            rcases complete_transfer_lookup_inv md5 _ msg.transfer_id
                msg.transfer_id t' ht' with hs | ⟨t0, ht0, hch, hcnt⟩
            · rw [ite_save_partial_incoming, alookup_ainsert_self] at hs
              have tEq := (Option.some.inj hs).symm
              rw [tEq]
              show task.transferred_chunks + 1 = countTransferred
                (task.chunks.set msg.chunk_index
                  { task.chunks.get ⟨msg.chunk_index, h⟩ with
                      transferred := true })
              rw [countTransferred_set_true task.chunks msg.chunk_index h hnot]
              omega
            · rw [ite_save_partial_incoming, alookup_ainsert_self] at ht0
              have t0Eq := (Option.some.inj ht0).symm
              rw [hcnt, hch, t0Eq]
              show task.transferred_chunks + 1 = countTransferred
                (task.chunks.set msg.chunk_index
                  { task.chunks.get ⟨msg.chunk_index, h⟩ with
                      transferred := true })
              rw [countTransferred_set_true task.chunks msg.chunk_index h hnot]
              omega
          · rw [if_neg h6] at ht'
            rw [ite_save_partial_incoming, alookup_ainsert_self] at ht'
            have tEq := (Option.some.inj ht').symm
            rw [tEq]
            show task.transferred_chunks + 1 = countTransferred
              (task.chunks.set msg.chunk_index
                { task.chunks.get ⟨msg.chunk_index, h⟩ with
                    transferred := true })
            rw [countTransferred_set_true task.chunks msg.chunk_index h hnot]
            omega
  · intro t hinv htot
    have hle : t.transferred_chunks ≤ t.total_chunks := by
      rw [hinv, htot]
      exact countTransferred_le t.chunks
    exact ⟨hle, progress_le_100 t hle⟩

/-- A one-chunk outgoing task fixture with a clear `transferred` flag. -/
def wMarkTask : TransferTask :=
  { transfer_id := "t"
    filename := "f"
    file_size := 1
    file_hash := "F"
    total_chunks := 1
    chunk_size := 1
    chunks := [{ chunk_index := 0, offset := 0, size := 1, checksum := "c" }] }

/-- Manager state holding `wMarkTask` as an outgoing transfer. -/
def wStMark : MState := { outgoing := [("t", wMarkTask)] }

/-- The task after `mark_chunk_sent` is called twice with index 0:
the counter reads 2 although only one flag is set. -/
def wMarkedTwice : TransferTask :=
  { transfer_id := "t"
    filename := "f"
    file_size := 1
    file_hash := "F"
    total_chunks := 1
    chunk_size := 1
    chunks := [{ chunk_index := 0, offset := 0, size := 1, checksum := "c",
                 transferred := true }]
    state := .completed
    transferred_chunks := 2 }

/-- Counterexample for C9 as stated: calling `mark_chunk_sent` twice
with the same chunk index leaves `transferred_chunks = 2` while only
one `transferred` flag is set, and the derived progress is 200% >
100%. -/
theorem c9_counterexample :
    alookup "t" (mark_chunk_sent
        (mark_chunk_sent wStMark "t" 0).1 "t" 0).1.outgoing =
      some wMarkedTwice ∧
    wMarkedTwice.transferred_chunks = 2 ∧
    countTransferred wMarkedTwice.chunks = 1 ∧
    100 < wMarkedTwice.progress := by
  refine ⟨by decide, by decide, by decide, ?_⟩
  norm_num [wMarkedTwice, TransferTask.progress]

/-- Witness for C9 (amended) at `wStMark`, chunk index 0, and a
one-chunk incoming state. -/
theorem c9_counter_flag_consistency_witness :
    (∀ task, alookup "t" wStMark.outgoing = some task →
      task.transferred_chunks = countTransferred task.chunks →
      ∀ (h : 0 < task.chunks.length),
      (task.chunks.get ⟨0, h⟩).transferred = false →
      ∀ t', alookup "t" (mark_chunk_sent wStMark "t" 0).1.outgoing =
          some t' →
        t'.transferred_chunks = countTransferred t'.chunks) ∧
    (∀ task, alookup "t" wStMark.incoming = some task →
      task.transferred_chunks = countTransferred task.chunks →
      ∀ (h : 0 < task.chunks.length),
      (task.chunks.get ⟨0, h⟩).transferred = false →
      ∀ t', alookup "t" (handle_chunk_data (fun _ => "c") idCodec
          ⟨4, 2, true⟩ wStMark
          { transfer_id := "t", chunk_index := 0, data := [5],
            compressed := false }).1.incoming = some t' →
        t'.transferred_chunks = countTransferred t'.chunks) ∧
    (∀ t : TransferTask, t.transferred_chunks = countTransferred t.chunks →
      t.total_chunks = t.chunks.length →
      t.transferred_chunks ≤ t.total_chunks ∧ t.progress ≤ 100) :=
  c9_counter_flag_consistency (fun _ => "c") idCodec ⟨4, 2, true⟩ wStMark
    "t" 0 { transfer_id := "t", chunk_index := 0, data := [5],
            compressed := false }

/-- An incoming one-chunk transfer whose sidecar is on disk
(`partials = ["t"]`). -/
def wStFail : MState :=
  { incoming := [("t", wOneChunkTask)]
    incoming_data := [("t", [0])]
    partials := ["t"] }

/-- Counterexample for C7 as stated: at `wStFail` the whole-file hash
check fails (`"X" ≠ "F"`), the engine answers
`transfer_error{hash_mismatch}` — but the `.partial` sidecar, the
in-memory buffer and the (now `Failed`) task are all retained:
`_complete_transfer` performs no cleanup on the mismatch path. -/
theorem c7_counterexample :
    (complete_transfer (fun _ => "X") wStFail "t").2.1 =
      OutMsg.transferError "t" "hash_mismatch" ∧
    "t" ∈ (complete_transfer (fun _ => "X") wStFail "t").1.partials ∧
    alookup "t"
        (complete_transfer (fun _ => "X") wStFail "t").1.incoming_data =
      some [0] ∧
    (∃ t, alookup "t"
        (complete_transfer (fun _ => "X") wStFail "t").1.incoming =
          some t ∧ t.state = .failed) := by
  refine ⟨by decide, by decide, by decide, ?_⟩
  exact ⟨{ wOneChunkTask with
           state := .failed
           error_message := "File hash mismatch" }, by decide, by decide⟩

/-- C7 (amended): disk-artifact discipline — cancellation removes the
task, its buffers and its `.partial` sidecar; successful completion
removes them as well; a terminal hash-mismatch failure retains the
(now `Failed`) task, the buffer and the sidecar; and
`_save_partial_data` records the sidecar of an interrupted transfer
for resume. -/
theorem c7_disk_artifacts (md5 : Bytes → String) (st : MState)
    (tid : String) :
    (alookup tid (cancel_transfer st tid).1.incoming = none ∧
     alookup tid (cancel_transfer st tid).1.incoming_data = none ∧
     alookup tid (cancel_transfer st tid).1.outgoing = none ∧
     alookup tid (cancel_transfer st tid).1.outgoing_data = none ∧
     tid ∉ (cancel_transfer st tid).1.partials) ∧
    (∀ task buf, alookup tid st.incoming = some task →
      alookup tid st.incoming_data = some buf →
      md5 buf = task.file_hash →
      alookup tid (complete_transfer md5 st tid).1.incoming = none ∧
      alookup tid (complete_transfer md5 st tid).1.incoming_data = none ∧
      tid ∉ (complete_transfer md5 st tid).1.partials) ∧
    (∀ task buf, alookup tid st.incoming = some task →
      alookup tid st.incoming_data = some buf →
      md5 buf ≠ task.file_hash →
      alookup tid (complete_transfer md5 st tid).1.incoming =
        some { task with state := .failed
                         error_message := "File hash mismatch" } ∧
      alookup tid (complete_transfer md5 st tid).1.incoming_data =
        some buf ∧
      (complete_transfer md5 st tid).1.partials = st.partials) ∧
    (∀ cfg : Config, cfg.resume_enabled = true →
      alookup tid st.incoming_data ≠ none →
      tid ∈ (save_partial_data cfg st tid).partials) := by
  refine ⟨?_, ?_, ?_, ?_⟩
  · simp only [cancel_transfer, cleanup_transfer]
    refine ⟨alookup_aerase_self _ _, alookup_aerase_self _ _,
      alookup_aerase_self _ _, alookup_aerase_self _ _, ?_⟩
    intro hmem
    rcases List.mem_filter.mp hmem with ⟨_, hne⟩
    simp at hne
  · intro task buf ht hb hm
    simp only [complete_transfer, ht, hb, if_neg (not_not_intro hm)]
    simp only [cleanup_transfer]
    refine ⟨?_, alookup_aerase_self _ _, ?_⟩
    · rw [alookup_aerase_self]
    · intro hmem
      rcases List.mem_filter.mp hmem with ⟨_, hne⟩
      simp at hne
  · intro task buf ht hb hm
    simp only [complete_transfer, ht, hb, if_pos hm]
    exact ⟨alookup_ainsert_self _ _ _, by trivial, by trivial⟩
  · intro cfg hre hbuf
    unfold save_partial_data
    rw [if_pos hre]
    cases hb : alookup tid st.incoming_data with
    | none => exact absurd hb hbuf
    | some b =>
      by_cases hmem : tid ∈ st.partials
      · simp [hmem]
      · simp [hmem]

/-- Witness for C7 (amended) at `wStFail`. -/
theorem c7_disk_artifacts_witness :
    (alookup "t" (cancel_transfer wStFail "t").1.incoming = none ∧
     alookup "t" (cancel_transfer wStFail "t").1.incoming_data = none ∧
     alookup "t" (cancel_transfer wStFail "t").1.outgoing = none ∧
     alookup "t" (cancel_transfer wStFail "t").1.outgoing_data = none ∧
     "t" ∉ (cancel_transfer wStFail "t").1.partials) ∧
    (∀ task buf, alookup "t" wStFail.incoming = some task →
      alookup "t" wStFail.incoming_data = some buf →
      (fun (_ : Bytes) => "F") buf = task.file_hash →
      alookup "t"
        (complete_transfer (fun _ => "F") wStFail "t").1.incoming = none ∧
      alookup "t"
        (complete_transfer (fun _ => "F") wStFail "t").1.incoming_data =
          none ∧
      "t" ∉ (complete_transfer (fun _ => "F") wStFail "t").1.partials) ∧
    (∀ task buf, alookup "t" wStFail.incoming = some task →
      alookup "t" wStFail.incoming_data = some buf →
      (fun (_ : Bytes) => "F") buf ≠ task.file_hash →
      alookup "t"
        (complete_transfer (fun _ => "F") wStFail "t").1.incoming =
        some { task with state := .failed
                         error_message := "File hash mismatch" } ∧
      alookup "t"
        (complete_transfer (fun _ => "F") wStFail "t").1.incoming_data =
          some buf ∧
      (complete_transfer (fun _ => "F") wStFail "t").1.partials =
        wStFail.partials) ∧
    (∀ cfg : Config, cfg.resume_enabled = true →
      alookup "t" wStFail.incoming_data ≠ none →
      "t" ∈ (save_partial_data cfg wStFail "t").partials) :=
  c7_disk_artifacts (fun _ => "F") wStFail "t"
